import Mathlib

/-!
Verification development for the simple-sql-db storage engine and tokenizer.

The definitions below are a shallow embedding of the Go source:
* bytes are natural numbers (each < 256 by construction of the encoders);
* Go byte slices are lists of naturals; Go strings used as payloads are their
  UTF-8 byte lists; identifier strings (table and field names) are Lean strings;
* Go int64 values are Lean integers (no arithmetic in the embedded code can
  overflow 64 bits on the inputs considered); float64 values are carried as
  their IEEE-754 bit patterns (a natural number < 2^64), since the engine never
  does float arithmetic, only encoding, decoding and equality;
* fallible code (including Go panics and failed file operations) returns
  Except String;
* the backing file is a list of bytes threaded explicitly through each
  operation.
-/

namespace SimpleSqlDb

/-! Little-endian byte encoding, the model of encoding/binary with 8-byte
words (src/backend/utils.go). -/

/-- Little-endian digits of n, k bytes (semantics of binary.LittleEndian.PutUint64
when k = 8). -/
def toBytesLE : Nat → Nat → List Nat
  | 0, _ => []
  | k + 1, n => n % 256 :: toBytesLE k (n / 256)

/-- Little-endian value of a byte list (semantics of binary.LittleEndian.Uint64). -/
def fromBytesLE : List Nat → Nat
  | [] => 0
  | b :: rest => b + 256 * fromBytesLE rest

/-! Primitives and values (src/unnamed/part_020, the final backend draft). -/

/-- Primitive represents all the data types that the database can store. -/
inductive Primitive where
  | string
  | int
  | float
  | bool
deriving DecidableEq

/-- Byte size of one cell of each primitive (Primitive.Size). -/
def Primitive.size : Primitive → Nat
  | .string => 1024
  | .int => 8
  | .float => 8
  | .bool => 1

/-- Model of the dynamically typed payload held in the Val field of a Value
(a Go interface value).  The nil constructor models a nil interface. -/
inductive GoVal where
  | str (s : List Nat)
  | i64 (v : Int)
  | f64 (bits : Nat)
  | boolean (b : Bool)
  | nil
deriving DecidableEq

/-- True when the bit pattern is an IEEE-754 binary64 NaN. -/
def isNanBits (b : Nat) : Bool := (b / 2 ^ 52) % 2 ^ 11 == 2047 && b % 2 ^ 52 != 0

/-- True when the bit pattern is an IEEE-754 binary64 zero (either sign). -/
def isZeroBits (b : Nat) : Bool := b % 2 ^ 63 == 0

/-- IEEE-754 equality of two binary64 bit patterns: NaN is unequal to
everything, positive and negative zero are equal, and all other patterns are
equal only when identical.  This is the semantics of the Go float64 operator
== and of the numeric equality the specification speaks about. -/
def floatEqBits (a b : Nat) : Bool :=
  if isNanBits a || isNanBits b then false
  else if isZeroBits a && isZeroBits b then true
  else a == b

/-- Semantics of the Go operator == on the interface payloads that occur in
the engine (used by UpdateRows as newVal.Val != oldVal.Val). -/
def goEq : GoVal → GoVal → Bool
  | .str a, .str b => a == b
  | .i64 a, .i64 b => a == b
  | .f64 a, .f64 b => floatEqBits a b
  | .boolean a, .boolean b => a == b
  | .nil, .nil => true
  | _, _ => false

/-! Byte encoders and decoders (src/backend/utils.go). -/

/-- sToB converts a string to a byte slice of size 1024: the bytes are placed
in a zeroed slot of capacity 1024 and the slot is resliced to full length, so
the result is the string truncated to 1024 bytes and padded with NUL bytes. -/
def sToB (val : List Nat) : List Nat := (val ++ List.replicate 1024 0).take 1024

/-- bToS converts a byte slice to a string, stopping at the first NUL byte. -/
def bToS (val : List Nat) : List Nat := val.takeWhile (fun b => b != 0)

/-- i64ToB converts an int64 to its 8 little-endian bytes (two-complement). -/
def i64ToB (val : Int) : List Nat := toBytesLE 8 (val % (2 ^ 64)).toNat

/-- bToI64 converts 8 little-endian bytes to an int64. -/
def bToI64 (val : List Nat) : Int :=
  let u := fromBytesLE (val.take 8)
  if u < 2 ^ 63 then (u : Int) else (u : Int) - 2 ^ 64

/-- f64ToB converts a float64 (carried as its bit pattern) to 8 little-endian
bytes. -/
def f64ToB (bits : Nat) : List Nat := toBytesLE 8 (bits % 2 ^ 64)

/-- bToF64 converts 8 little-endian bytes to a float64 bit pattern. -/
def bToF64 (val : List Nat) : Nat := fromBytesLE (val.take 8)

/-- boolToB converts a bool to a byte slice of size 1. -/
def boolToB (val : Bool) : List Nat := [if val then 1 else 0]

/-- bToBool converts a byte slice of size 1 to a bool. -/
def bToBool (val : List Nat) : Bool := val.headD 0 == 1

/-- Value is a single cell in a table. -/
structure Value where
  type : Primitive
  val : GoVal
  fieldName : String
deriving DecidableEq

/-- Value.Bytes encodes the payload by its dynamic type.  The source switch
has cases for string, int64 and float64 only: a bool payload (and a nil one)
falls through and yields nil, i.e. no bytes at all. -/
def Value.Bytes (v : Value) : List Nat :=
  match v.val with
  | .str s => sToB s
  | .i64 n => i64ToB n
  | .f64 bits => f64ToB bits
  | _ => []

/-- anyToB encodes an arbitrary payload by its dynamic type (this helper,
unlike Value.Bytes, does have a bool case). -/
def anyToB : GoVal → List Nat
  | .str s => sToB s
  | .i64 n => i64ToB n
  | .f64 bits => f64ToB bits
  | .boolean b => boolToB b
  | .nil => []

/-- bToAny decodes a cell by the declared primitive of its field. -/
def bToAny (val : List Nat) : Primitive → GoVal
  | .string => .str (bToS val)
  | .int => .i64 (bToI64 val)
  | .float => .f64 (bToF64 val)
  | .bool => .boolean (bToBool val)

/-- Field is essentially a column in a table. -/
structure Field where
  name : String
  type : Primitive
deriving DecidableEq

/-! Comparison operators (src/backend/comparisons.go and the Operator type of
src/unnamed/part_024). -/

inductive Operator where
  | eq
  | ne
  | lt
  | le
  | gt
  | ge
deriving DecidableEq

/-- compareEqual: element-wise equality over the indices of the first slice
(the caller has already checked that the lengths agree). -/
def compareEqual (v1 v2 : List Nat) : Bool :=
  (v1.zip v2).all fun p => p.1 == p.2

/-- compareLessThan: true when some index has a strictly smaller byte in the
first slice (the loop returns true at the first such index). -/
def compareLessThan (v1 v2 : List Nat) : Bool :=
  (v1.zip v2).any fun p => p.1 < p.2

/-- Loop of compareLessThanOrEqual: returns true at the first index where the
first byte is smaller, otherwise reports whether all bytes were equal. -/
def compareLELoop : List (Nat × Nat) → Bool → Bool
  | [], allEqual => allEqual
  | p :: rest, allEqual =>
    if p.1 < p.2 then true else compareLELoop rest (allEqual && p.1 == p.2)

def compareLessThanOrEqual (v1 v2 : List Nat) : Bool :=
  compareLELoop (v1.zip v2) true

/-- compareGreaterThan, mirror of compareLessThan. -/
def compareGreaterThan (v1 v2 : List Nat) : Bool :=
  (v1.zip v2).any fun p => p.1 > p.2

/-- Loop of compareGreaterThanOrEqual, mirror of compareLELoop. -/
def compareGELoop : List (Nat × Nat) → Bool → Bool
  | [], allEqual => allEqual
  | p :: rest, allEqual =>
    if p.1 > p.2 then true else compareGELoop rest (allEqual && p.1 == p.2)

def compareGreaterThanOrEqual (v1 v2 : List Nat) : Bool :=
  compareGELoop (v1.zip v2) true

/-- compareValues dispatches on the operator; mismatched slice lengths are a
panic in the source, modelled as an error. -/
def compareValues (v1 : List Nat) (operator : Operator) (v2 : List Nat)
    (_p : Primitive) : Except String Bool :=
  if v1.length != v2.length then
    .error "slice lengths do not match. cannot compare."
  else
    .ok (match operator with
      | .eq => compareEqual v1 v2
      | .ne => !compareEqual v1 v2
      | .lt => compareLessThan v1 v2
      | .le => compareLessThanOrEqual v1 v2
      | .gt => compareGreaterThan v1 v2
      | .ge => compareGreaterThanOrEqual v1 v2)

/-! Table state and positional file I/O.  A table handle caches the byte
counters exactly as the Go struct does; the backing file content is carried
alongside (src/unnamed/part_020 and part_024). -/

/-- Filter mirrors the final Filter struct: an embedded Value (giving the
filter its Type and Val), an optional value set for range comparisons, the
range flag, the field name and the operator. -/
structure Filter where
  value : Value
  vals : List GoVal
  rangeComparison : Bool
  fieldName : String
  operator : Operator
deriving DecidableEq

/-- Row is a Value slice together with the file-system index of the row. -/
structure Row where
  values : List Value
  index : Int
deriving DecidableEq

/-- The table struct: cached counters, schema and the backing file bytes. -/
structure Table where
  fileByteCount : Int
  headerByteCount : Int
  rowByteCount : Int
  rowCount : Int
  name : String
  fields : List Field
  file : List Nat
deriving DecidableEq

/-- Positional read (os.File.ReadAt): an error when the offset is negative or
fewer than len bytes are available. -/
def readAt (file : List Nat) (off : Int) (len : Nat) : Except String (List Nat) :=
  if off < 0 then .error "negative offset"
  else if off.toNat + len ≤ file.length then .ok ((file.drop off.toNat).take len)
  else .error "EOF"

/-- Positional write (os.File.WriteAt): extends the file with zero bytes when
writing past the end; an error on a negative offset. -/
def writeAt (file : List Nat) (off : Int) (b : List Nat) : Except String (List Nat) :=
  if off < 0 then .error "negative offset"
  else
    let o := off.toNat
    let base := if file.length < o then file ++ List.replicate (o - file.length) 0 else file
    .ok (base.take o ++ b ++ base.drop (o + b.length))

/-- os.File.Truncate: shrinks or zero-extends the file to the given size. -/
def truncateFile (file : List Nat) (size : Int) : Except String (List Nat) :=
  if size < 0 then .error "truncate: negative size"
  else if file.length ≤ size.toNat then .ok (file ++ List.replicate (size.toNat - file.length) 0)
  else .ok (file.take size.toNat)

/-- calculateRowSize sums the primitive sizes of the fields. -/
def calculateRowSize (fields : List Field) : Int :=
  (fields.map fun f => (f.type.size : Int)).sum

/-- FieldWithName returns the first field carrying the name, or an error. -/
def fieldWithName (t : Table) (fieldName : String) : Except String Field :=
  match t.fields.find? (fun f => f.name == fieldName) with
  | some f => .ok f
  | none => .error "field does not exist on table"

/-- Lookup in the valsMap built by ranging over the value list: a Go map write
per element, so the last value with a given field name wins. -/
def valsMapLookup (values : List Value) (name : String) : Option Value :=
  (values.filter fun v => v.fieldName == name).getLast?

/-! InsertRow (src/unnamed/part_024, lines 410-455). -/

/-- The row buffer built by InsertRow: per field, either the encoded bytes of
the keyed value or a zeroed default of the field width, appended in field
order. -/
def insertRowBytes (values : List Value) (fields : List Field) : List Nat :=
  fields.flatMap fun field =>
    match valsMapLookup values field.name with
    | some v => v.Bytes
    | none => List.replicate field.type.size 0

/-- Models the reslice b = b[:cap(b)]: the buffer was allocated zeroed with
capacity r, so as long as the builder did not outgrow r the reslice pads the
buffer with zero bytes to exactly r.  (A payload larger than its field would
have forced a Go reallocation of runtime-defined capacity; the bytes built so
far are kept in that case.) -/
def padToRow (r : Nat) (b : List Nat) : List Nat :=
  if b.length ≤ r then b ++ List.replicate (r - b.length) 0 else b

/-- InsertRow appends one encoded row at the cached end-of-file offset and
bumps the cached counters by the number of bytes written. -/
def InsertRow (t : Table) (values : List Value) : Except String (Table × Int) :=
  if t.fields.length < values.length then
    .error "there are only so many fields on this table"
  else
    let b := padToRow t.rowByteCount.toNat (insertRowBytes values t.fields)
    match writeAt t.file t.fileByteCount b with
    | .error e => .error e
    | .ok file' =>
      .ok ({ t with
              file := file'
              fileByteCount := t.fileByteCount + (b.length : Int)
              rowCount := t.rowCount + 1 }, 1)

/-! rowsThatMatch (src/unnamed/part_024, lines 497-597). -/

/-- Filter validation loop: the field must exist, its primitive must equal the
filter primitive, and range comparisons admit only the operators = and !=. -/
def validateFilters (t : Table) : List Filter → Except String Unit
  | [] => .ok ()
  | f :: rest => do
    let field ← fieldWithName t f.fieldName
    if field.type != f.value.type then
      .error "filter is of the wrong type for the field"
    else if f.rangeComparison && !(f.operator == .eq || f.operator == .ne) then
      .error "only OperatorEqual and OperatorNotEqual are supported in range comparison"
    else validateFilters t rest

/-- Range comparison loop: compare the cell with each candidate value using
the filter operator; at the first comparison returning true, the filter is
satisfied exactly when the operator is =. -/
def rangeSatisfies (cellBytes : List Nat) (op : Operator) (p : Primitive) :
    List GoVal → Except String Bool
  | [] => .ok false
  | v :: rest => do
    let hit ← compareValues cellBytes op (anyToB v) p
    if hit then .ok (op == .eq) else rangeSatisfies cellBytes op p rest

/-- All filters attached to one field, tested in order; the loop stops at the
first unsatisfied filter. -/
def filtersSatisfied (cellBytes : List Nat) (p : Primitive) :
    List Filter → Except String Bool
  | [] => .ok true
  | f :: rest => do
    let sat ← if f.rangeComparison then rangeSatisfies cellBytes f.operator p f.vals
              else compareValues cellBytes f.operator (anyToB f.value.val) p
    if !sat then .ok false else filtersSatisfied cellBytes p rest

/-- Per-row field loop of the scan: walks the fields with a byte cursor,
testing the filters of each field while the row is still a candidate and
decoding each visited cell. -/
def scanRowFields (allFilters : List Filter) (rowBytes : List Nat) :
    List Field → Nat → Bool → List Value → Except String (Bool × List Value)
  | [], _, shouldAddRow, acc => .ok (shouldAddRow, acc)
  | field :: rest, cursor, shouldAddRow, acc =>
    if shouldAddRow then do
      let cellBytes := (rowBytes.drop cursor).take field.type.size
      let sat ← filtersSatisfied cellBytes field.type
        (allFilters.filter fun f => f.fieldName == field.name)
      let acc' := acc ++ [{ type := field.type
                            val := bToAny cellBytes field.type
                            fieldName := field.name : Value }]
      scanRowFields allFilters rowBytes rest (cursor + field.type.size) sat acc'
    else
      scanRowFields allFilters rowBytes rest (cursor + field.type.size) shouldAddRow acc

/-- Row loop of the scan: reads each row of rowByteCount bytes in sequence
starting right after the header (a short read is a corrupt-file error) and
keeps the rows whose filters all hold. -/
def scanLoop (t : Table) (filters : List Filter) : Nat → Int → Except String (List Row)
  | 0, _ => .ok []
  | k + 1, i => do
    let rowBytes ← readAt t.file (t.headerByteCount + i * t.rowByteCount) t.rowByteCount.toNat
    let (shouldAddRow, vals) ← scanRowFields filters rowBytes t.fields 0 true []
    let rest ← scanLoop t filters k (i + 1)
    .ok (if shouldAddRow then { values := vals, index := i } :: rest else rest)

/-- rowsThatMatch: validate the filters, then scan all rowCount rows. -/
def rowsThatMatch (t : Table) (filters : List Filter) : Except String (List Row) := do
  validateFilters t filters
  scanLoop t filters t.rowCount.toNat 0

/-! DeleteRows (src/unnamed/part_024, lines 657-799). -/

/-- A chunk is a run of surviving rows that all shift toward the file start by
the same number of row slots (the Go field end is called stop here, end being
reserved in Lean). -/
structure Chunk where
  start : Int
  stop : Int
  shift : Int
deriving DecidableEq

/-- The chunk-building loop of DeleteRows.  It walks the deleted rows in
ascending index order carrying the optional running chunk start: a nil start
is (re)seeded at the row after the current deleted row; consecutive deleted
rows clear the start and continue; otherwise a chunk up to the row before the
next deleted row (or up to the last row of the table) is emitted with shift
i + 1.  Exactly as in the source, the start is NOT cleared after emitting a
chunk. -/
def buildChunks (rowCount : Int) : List Row → Int → Option Int → List Chunk
  | [], _, _ => []
  | row :: rest, i, start0 =>
    let s := start0.getD (row.index + 1)
    match rest with
    | [] => [{ start := s, stop := rowCount - 1, shift := i + 1 }]
    | next :: _ =>
      if next.index == row.index + 1 then
        buildChunks rowCount rest (i + 1) none
      else
        { start := s, stop := next.index - 1, shift := i + 1 }
          :: buildChunks rowCount rest (i + 1) (some s)

/-- maxChunkSize, 5 MiB: chunks shifted together are size-capped so that not
too much data is loaded into memory at once. -/
def maxChunkSize : Int := 1024 * 1024 * 5

/-- Byte size of a chunk given the row width. -/
def chunkByteCount (rowByteCount : Int) (c : Chunk) : Int :=
  (c.stop - c.start + 1) * rowByteCount

/-- The split pass: a chunk of more than two rows whose byte size exceeds
maxChunkSize is replaced by its two halves around the integer midpoint, both
inheriting the shift of the parent; every other chunk passes through. -/
def splitChunksPass (rowByteCount : Int) (chunks : List Chunk) : List Chunk :=
  chunks.flatMap fun current =>
    let rowCount := current.stop - current.start + 1
    let chunkSize := rowCount * rowByteCount
    if chunkSize > maxChunkSize && rowCount > 2 then
      let split := Int.tdiv (current.stop + current.start) 2
      [{ start := current.start, stop := split, shift := current.shift },
       { start := split + 1, stop := current.stop, shift := current.shift }]
    else [current]

/-- The shift loop: per chunk, read its byte range at its current offset and
write it shift row-slots earlier, threading the mutated file. -/
def shiftChunks (headerByteCount rowByteCount : Int) :
    List Nat → List Chunk → Except String (List Nat)
  | file, [] => .ok file
  | file, c :: rest => do
    let rowCount := c.stop - c.start + 1
    let chunkSize := rowCount * rowByteCount
    let offset := c.start * rowByteCount + headerByteCount
    let chunkBytes ← readAt file offset chunkSize.toNat
    let file' ← writeAt file (offset - c.shift * rowByteCount) chunkBytes
    shiftChunks headerByteCount rowByteCount file' rest

/-- DeleteRows: with no filters, truncate to the header and reset the
counters; otherwise collect the matching rows, build and split the shift
chunks, run the shift loop, truncate by the deleted byte count and update the
cached counters.  Returns the number of deleted rows. -/
def DeleteRows (t : Table) (filters : List Filter) : Except String (Table × Int) :=
  if filters.length == 0 then
    match truncateFile t.file t.headerByteCount with
    | .error e => .error e
    | .ok file' =>
      .ok ({ t with
              file := file'
              rowCount := 0
              fileByteCount := t.headerByteCount }, t.rowCount)
  else
    match rowsThatMatch t filters with
    | .error e => .error e
    | .ok rows =>
      if rows.length == 0 then .ok (t, 0)
      else
        let chunks := buildChunks t.rowCount rows 0 none
        let splitChunks := splitChunksPass t.rowByteCount chunks
        match shiftChunks t.headerByteCount t.rowByteCount t.file splitChunks with
        | .error e => .error e
        | .ok file' =>
          let bytesToTruncate := (rows.length : Int) * t.rowByteCount
          match truncateFile file' (t.fileByteCount - bytesToTruncate) with
          | .error e => .error e
          | .ok file'' =>
            .ok ({ t with
                    file := file''
                    rowCount := t.rowCount - (rows.length : Int)
                    fileByteCount := t.fileByteCount - bytesToTruncate },
                 (rows.length : Int))

/-! UpdateRows (src/unnamed/part_024, lines 804-858). -/

/-- Builds the rewritten bytes of one matched row and reports whether any
overridden payload differs (Go inequality on the decoded values) from the old
one.  Walking past the end of the decoded value list is an index-out-of-range
panic in the source. -/
def buildNewRow (values : List Value) :
    List Field → List Value → Except String (Bool × List Nat)
  | [], _ => .ok (false, [])
  | _ :: _, [] => .error "index out of range"
  | field :: fs, oldVal :: vs => do
    let (ru, bytes) ← buildNewRow values fs vs
    match valsMapLookup values field.name with
    | some newVal => .ok ((!goEq newVal.val oldVal.val || ru), newVal.Bytes ++ bytes)
    | none => .ok (ru, oldVal.Bytes ++ bytes)

/-- The rebuilt rows of UpdateRows: only matched rows requiring an update are
kept, with their row index. -/
def buildNewRows (t : Table) (values : List Value) :
    List Row → Except String (List (Int × List Nat))
  | [] => .ok []
  | oldRow :: rest => do
    let (ru, bytes) ← buildNewRow values t.fields oldRow.values
    let tail ← buildNewRows t values rest
    .ok (if ru then (oldRow.index, bytes) :: tail else tail)

/-- Write loop of UpdateRows: each rebuilt row is written at its slot offset. -/
def updateWriteLoop (headerByteCount rowByteCount : Int) :
    List Nat → List (Int × List Nat) → Except String (List Nat)
  | file, [] => .ok file
  | file, (idx, bytes) :: rest => do
    let file' ← writeAt file (idx * rowByteCount + headerByteCount) bytes
    updateWriteLoop headerByteCount rowByteCount file' rest

/-- UpdateRows: scan, rebuild the rows needing a change, write them back in
place and return how many rows were rewritten.  The cached counters are
untouched. -/
def UpdateRows (t : Table) (values : List Value) (filters : List Filter) :
    Except String (Table × Int) :=
  match rowsThatMatch t filters with
  | .error e => .error e
  | .ok oldRows =>
    match buildNewRows t values oldRows with
    | .error e => .error e
    | .ok newRows =>
      match updateWriteLoop t.headerByteCount t.rowByteCount t.file newRows with
      | .error e => .error e
      | .ok file' => .ok ({ t with file := file' }, (newRows.length : Int))

/-! CreateTable and readTableFile (src/backend/tablFile.go, the draft paired
with the final operations). -/

/-- The header bytes written by writeTableHeader: an 8-byte little-endian
length prefix covering itself plus the marshalled schema, the schema bytes,
and the 200*64-byte free-rows buffer the source also writes (without counting
it in headerByteCount). -/
def writeTableHeaderBytes (data : List Nat) : List Nat :=
  i64ToB ((data.length : Int) + 8) ++ data ++ List.replicate (200 * 64) 0

/-- CreateTable builds a fresh table handle over a newly created file.  The
data argument stands for the JSON-marshalled schema bytes, whose exact shape
the embedding leaves abstract. -/
def CreateTable (name : String) (fields : List Field) (data : List Nat) : Table :=
  { fileByteCount := (data.length : Int) + 8
    headerByteCount := (data.length : Int) + 8
    rowByteCount := calculateRowSize fields
    rowCount := 0
    name := name
    fields := fields
    file := writeTableHeaderBytes data }

/-- readTableFile reads the 8-byte length prefix, reads and unmarshals the
schema region (unmarshal stands for json.Unmarshal plus extraction of the
name and field list), recomputes the row width, takes the file size, and
derives the row count by integer division.  A zero row width would be a
division-by-zero panic. -/
def readTableFile (file : List Nat)
    (unmarshal : List Nat → Option (String × List Field)) : Except String Table :=
  let headerSize := bToI64 (file.take 8)
  if headerSize - 8 < 0 then .error "make: negative buffer size"
  else
    let header := (file.drop 8).take (headerSize - 8).toNat
    match unmarshal header with
    | none => .error "json unmarshal failed"
    | some (name, fields) =>
      let rowByteCount := calculateRowSize fields
      if rowByteCount == 0 then .error "integer divide by zero"
      else
        .ok { fileByteCount := (file.length : Int)
              headerByteCount := headerSize
              rowByteCount := rowByteCount
              rowCount := Int.tdiv ((file.length : Int) - headerSize) rowByteCount
              name := name
              fields := fields
              file := file }

/-! Engine-side helpers (src/engine/engiOperations.go and
src/engine/language/utils.go). -/

/-- Field.NewValue / NewValueForField with the string-to-number library
parsers left abstract (atoi models strconv.Atoi, parseFloat models
strconv.ParseFloat on the raw payload bytes).  The switch has cases for the
string, int and float primitives only: for a bool field it falls through and
returns a nil value with a nil error, modelled as ok none. -/
def Field.NewValue (atoi : List Nat → Except String Int)
    (parseFloat : List Nat → Except String Nat)
    (field : Field) (val : GoVal) : Except String (Option Value) :=
  match field.type with
  | .string =>
    match val with
    | .str s => .ok (some { type := .string, val := .str s, fieldName := field.name })
    | _ => .error "must be string"
  | .int =>
    match val with
    | .i64 i => .ok (some { type := .int, val := .i64 i, fieldName := field.name })
    | .str s =>
      match atoi s with
      | .ok i => .ok (some { type := .int, val := .i64 i, fieldName := field.name })
      | .error _ => .error "could not parse int"
    | _ => .error "could not parse int"
  | .float =>
    match val with
    | .f64 f => .ok (some { type := .float, val := .f64 f, fieldName := field.name })
    | .str s =>
      match parseFloat s with
      | .ok f => .ok (some { type := .float, val := .f64 f, fieldName := field.name })
      | .error _ => .error "could not parse float"
    | _ => .error "could not parse float"
  | .bool => .ok none

/-- The result-row cell formatter of selectRows: a switch over the dynamic
payload type with cases for string (quoted), int64 (decimal) and float64
(delegated to the strconv float formatter, left abstract); a bool payload has
no case, so the cell formats as the zero-value empty string. -/
def formatCell (floatFormat : Nat → List Nat) : GoVal → List Nat
  | .str s => 34 :: s ++ [34]
  | .i64 v => (toString v).toList.map Char.toNat
  | .f64 bits => floatFormat bits
  | _ => []

/-! Tokenizer quote groups (src/engine/language/language.go, lines 265-311). -/

/-- The single-quote, double-quote and backslash characters (written via
their code points). -/
def singleQuoteChar : Char := Char.ofNat 39

def doubleQuoteChar : Char := Char.ofNat 34

def backslashChar : Char := Char.ofNat 92

/-- isQuote: true for the single-quote and the double-quote character. -/
def isQuote (r : Char) : Bool := r == singleQuoteChar || r == doubleQuoteChar

/-- Loop of captureQuoteGroup over the characters after the opening quote,
carrying the running index, the escaped flag and the captured characters.  An
escaped character is taken literally; a backslash sets the escape flag; any
unescaped quote character (of either kind) closes the group; running out of
input is the unclosed-quote error. -/
def captureQuoteLoop :
    List Char → Nat → Bool → List Char → Except String (List Char × Nat)
  | [], _, _, _ => .error "unclosed quotes"
  | r :: rest, i, escaped, captured =>
    if escaped then captureQuoteLoop rest (i + 1) false (captured ++ [r])
    else if r == backslashChar then captureQuoteLoop rest (i + 1) true captured
    else if isQuote r then .ok (captured, i)
    else captureQuoteLoop rest (i + 1) false (captured ++ [r])

/-- captureQuoteGroup: the character at the start index must be a quote; the
group is captured by captureQuoteLoop starting right after it.  Returns the
captured text (outer quotes excluded) and the index of the closing quote. -/
def captureQuoteGroup (s : List Char) (start : Nat) : Except String (List Char × Nat) :=
  match s.drop start with
  | [] => .error "index out of range"
  | c :: rest =>
    if !isQuote c then .error "starting rune is not a quote"
    else captureQuoteLoop rest (start + 1) false []

/-! Concrete instances used to evaluate the operations on explicit inputs. -/

/-- An arbitrary 8-byte header region used by the concrete tables. -/
def hdr8 : List Nat := List.replicate 8 7

/-- A four-row table over a single int column holding 10, 11, 12, 13. -/
def tblC1 : Table :=
  { fileByteCount := 40, headerByteCount := 8, rowByteCount := 8, rowCount := 4
    name := "t", fields := [{ name := "v", type := .int }]
    file := hdr8 ++ i64ToB 10 ++ i64ToB 11 ++ i64ToB 12 ++ i64ToB 13 }

/-- A range filter matching the rows whose int cell is 11 or 13, i.e. the
rows at indices 1 and 3 of tblC1. -/
def filterC1 : Filter :=
  { value := { type := .int, val := .nil, fieldName := "" }
    vals := [.i64 11, .i64 13], rangeComparison := true
    fieldName := "v", operator := .eq }

/-- The file DeleteRows actually leaves behind on tblC1 with filterC1. -/
def tblC1After : Table :=
  { tblC1 with
      file := hdr8 ++ i64ToB 12 ++ i64ToB 13
      rowCount := 2
      fileByteCount := 24 }

/-- The file the specification asks for: the survivors 10 and 12 (the rows at
indices 0 and 2) at dense indices, after the header. -/
def tblC1Expected : List Nat := hdr8 ++ i64ToB 10 ++ i64ToB 12

/-- A one-row table over a single float column holding a NaN. -/
def nanBits : Nat := 0x7FF8000000000000

def tblC3 : Table :=
  { fileByteCount := 16, headerByteCount := 8, rowByteCount := 8, rowCount := 1
    name := "t", fields := [{ name := "f", type := .float }]
    file := hdr8 ++ f64ToB nanBits }

def valsC3 : List Value := [{ type := .float, val := .f64 nanBits, fieldName := "f" }]

/-- An empty table over a single bool column. -/
def tblC4 : Table :=
  { fileByteCount := 8, headerByteCount := 8, rowByteCount := 1, rowCount := 0
    name := "t", fields := [{ name := "b", type := .bool }]
    file := hdr8 }

/-- An empty table over a single int column. -/
def tblC6 : Table :=
  { fileByteCount := 8, headerByteCount := 8, rowByteCount := 8, rowCount := 0
    name := "t", fields := [{ name := "a", type := .int }]
    file := hdr8 }

/-- A value keyed to a field name that does not exist on tblC6. -/
def valC6 : Value := { type := .int, val := .i64 5, fieldName := "zz" }

/-- A table file whose data region (12 bytes) is not a multiple of the 8-byte
row width: length prefix 10, two schema bytes, then 12 data bytes. -/
def fileC5 : List Nat := i64ToB 10 ++ [7, 7] ++ List.replicate 12 0

/-- The schema decoder for fileC5 (stands for json.Unmarshal). -/
def unmarshalC5 : List Nat → Option (String × List Field) :=
  fun _ => some ("t", [{ name := "v", type := .int }])

/-- The table readTableFile actually builds from fileC5. -/
def tblC5 : Table :=
  { fileByteCount := 22, headerByteCount := 10, rowByteCount := 8, rowCount := 1
    name := "t", fields := [{ name := "v", type := .int }]
    file := fileC5 }

/-! Specification-side predicates used to state the claims. -/

/-- Invariant 1 of the specification: the cached file size equals the header
size plus row count times row width. -/
def sizeInvariant (t : Table) : Prop :=
  t.fileByteCount = t.headerByteCount + t.rowCount * t.rowByteCount

instance (t : Table) : Decidable (sizeInvariant t) :=
  inferInstanceAs (Decidable (_ = _))

/-- Every value that InsertRow will select for a field encodes to at most the
width of that field (true of every well-typed value: payloads match their
declared primitive). -/
def valsFit (values : List Value) (fields : List Field) : Bool :=
  fields.all fun f =>
    match valsMapLookup values f.name with
    | some v => v.Bytes.length ≤ f.type.size
    | none => true

/-- A matched row needs rewriting: some overridden field has a payload that
differs, under Go equality, from the decoded old payload. -/
def rowDiffers (values : List Value) (fields : List Field) (row : Row) : Bool :=
  (fields.zip row.values).any fun p =>
    match valsMapLookup values p.1.name with
    | some newVal => !goEq newVal.val p.2.val
    | none => false

/-- A quote-group body without quote or backslash characters. -/
def noSpecialChars (body : List Char) : Bool :=
  body.all fun c => !isQuote c && c != backslashChar

/-! Theorems for the claims. -/

/-- C1: the claim says DeleteRows removes exactly the matched rows, keeping
the survivors in their original relative order at dense indices.  Evaluating
the source algorithm on a four-row int table (10, 11, 12, 13) with a filter
matching indices 1 and 3 shows the bug: the chunk-building loop never clears
its running start pointer after emitting a chunk, so the second chunk spans
rows 2..3 with shift 2 and overwrites the survivor at index 0; the operation
commits with the data region decoding to 12, 13 instead of the survivors
10, 12 (the return value 2 is the only part that matches the claim). -/
theorem deleteRows_shift_bug :
    DeleteRows tblC1 [filterC1] = .ok (tblC1After, 2)
      ∧ tblC1After.file ≠ tblC1Expected
      ∧ (rowsThatMatch tblC1 [filterC1]).map (fun rows => rows.map Row.index)
          = .ok [1, 3] := by
  refine ⟨rfl, by decide, rfl⟩

/-- C4: the claim says a bool literal round-trips through a BOOL cell and the
formatter renders it as true or false.  In the source, Value.Bytes has no
case for a bool payload and returns nil, so inserting true writes a zero byte
into the one-byte cell; scanning decodes it as false; Field.NewValue has no
bool case and produces no value at all; and the result formatter, also
missing a bool case, renders the cell as the empty string. -/
theorem bool_roundtrip_bug :
    (Value.Bytes { type := .bool, val := .boolean true, fieldName := "b" }) = []
      ∧ (do
          let (t1, _) ← InsertRow tblC4 [{ type := .bool, val := .boolean true, fieldName := "b" }]
          let rows ← rowsThatMatch t1 []
          pure (t1.file, rows.map fun r => r.values) : Except String _)
          = .ok (hdr8 ++ [0],
                 [[{ type := .bool, val := .boolean false, fieldName := "b" }]])
      ∧ Field.NewValue (fun _ => .error "") (fun _ => .error "")
          { name := "b", type := .bool } (.boolean true) = .ok none
      ∧ formatCell (fun _ => []) (.boolean true) = [] := by
  exact ⟨rfl, rfl, rfl, rfl⟩

/-- C3 counterexample: the claim says running the same UPDATE twice in a row
returns 0 the second time.  Updating a float field to NaN is counted as a
change on every run, because the Go inequality test on the decoded payloads
treats NaN as different from itself: on a one-row table whose cell already
holds the NaN being written, UpdateRows returns 1 and leaves the table state
unchanged, so the second identical run returns 1 as well, not 0. -/
theorem updateRows_nan_repeat_counterexample :
    UpdateRows tblC3 valsC3 [] = .ok (tblC3, 1) ∧ (1 : Int) ≠ 0 := by
  exact ⟨rfl, by decide⟩

/-- C5 counterexample: the claim says Open fails with a corrupt-file error
when the data region is not an exact multiple of the row width.  On a file
with a 10-byte header and 12 data bytes over an 8-byte row width, the source
readTableFile succeeds and silently floors the division, deriving one row. -/
theorem readTableFile_nonmultiple_counterexample :
    readTableFile fileC5 unmarshalC5 = .ok tblC5
      ∧ Int.emod ((22 : Int) - 10) 8 ≠ 0
      ∧ tblC5.rowCount = 1 := by
  exact ⟨rfl, by decide, rfl⟩

/-- C6 counterexample: the claim says the storage engine rejects every value
list in which a keyed value names a field absent from the schema.  InsertRow
checks only the value count: a value keyed to the unknown name zz is silently
dropped and a zero-filled row is committed with return value 1. -/
theorem insertRow_unknown_field_accepted :
    InsertRow tblC6 [valC6]
      = .ok ({ tblC6 with
                file := hdr8 ++ List.replicate 8 0
                fileByteCount := 16
                rowCount := 1 }, 1) := by
  exact rfl

/-- C7 counterexample: the claim says that after the split pass no chunk read
during the shift loop exceeds 5 MiB.  The pass splits an over-cap chunk only
once: an 11-row chunk of 1 MiB rows (11 MiB) splits at its midpoint into a
6 MiB half and a 5 MiB half, and the 6 MiB half is handed to the shift loop
unsplit. -/
theorem splitChunks_overcap_counterexample :
    chunkByteCount 1048576 { start := 0, stop := 10, shift := 1 } > maxChunkSize
      ∧ splitChunksPass 1048576 [{ start := 0, stop := 10, shift := 1 }]
          = [{ start := 0, stop := 5, shift := 1 }, { start := 6, stop := 10, shift := 1 }]
      ∧ chunkByteCount 1048576 { start := 0, stop := 5, shift := 1 } > maxChunkSize := by
  exact ⟨by decide, rfl, by decide⟩

/-- C8 counterexample: the claim says byte-wise equality of FLOAT encodings
holds iff the two numbers are numerically equal.  Negative zero and positive
zero are numerically equal yet encode to different bytes, and a NaN pattern
encodes to bytes equal to themselves yet is numerically unequal to itself. -/
theorem float_byte_eq_vs_numeric_counterexample :
    compareEqual (f64ToB (2 ^ 63)) (f64ToB 0) = false
      ∧ floatEqBits (2 ^ 63) 0 = true
      ∧ compareEqual (f64ToB nanBits) (f64ToB nanBits) = true
      ∧ floatEqBits nanBits nanBits = false := by
  exact ⟨by decide, by decide, by decide, by decide⟩

/-- C9 counterexample: the claim says a quote group pairs an opening quote
with a closing quote of the same kind, failing with an unclosed-quote error
otherwise.  The scanner closes on the first unescaped quote of either kind:
a group opened by a single quote is happily closed by a double quote. -/
theorem captureQuoteGroup_mismatched_quotes_counterexample :
    captureQuoteGroup [singleQuoteChar, Char.ofNat 97, Char.ofNat 98, doubleQuoteChar] 0
        = .ok ([Char.ofNat 97, Char.ofNat 98], 3)
      ∧ singleQuoteChar ≠ doubleQuoteChar := by
  exact ⟨rfl, by decide⟩

/-! Helper lemmas for the size invariant (C2). -/

theorem calculateRowSize_cons (f : Field) (fs : List Field) :
    calculateRowSize (f :: fs) = (f.type.size : Int) + calculateRowSize fs := by
  simp [calculateRowSize]

theorem calculateRowSize_nonneg (fields : List Field) : 0 ≤ calculateRowSize fields := by
  induction fields with
  | nil => simp [calculateRowSize]
  | cons f fs ih => rw [calculateRowSize_cons]; positivity

theorem insertRowBytes_length_le (values : List Value) (fields : List Field)
    (h : valsFit values fields = true) :
    ((insertRowBytes values fields).length : Int) ≤ calculateRowSize fields := by
  induction fields with
  | nil => simp [insertRowBytes, calculateRowSize]
  | cons f fs ih =>
    rw [valsFit, List.all_cons] at h
    obtain ⟨h1, h2⟩ := Bool.and_eq_true_iff.mp h
    have ih' := ih h2
    rw [insertRowBytes, List.flatMap_cons, calculateRowSize_cons]
    rw [insertRowBytes] at ih'
    cases hl : valsMapLookup values f.name with
    | some v =>
      rw [hl] at h1
      simp only [decide_eq_true_eq] at h1
      simp only [List.length_append]
      push_cast
      omega
    | none =>
      rw [hl] at h1
      simp only [List.length_append, List.length_replicate]
      push_cast
      omega

theorem padToRow_length (r : Nat) (b : List Nat) (h : b.length ≤ r) :
    (padToRow r b).length = r := by
  simp only [padToRow, if_pos h, List.length_append, List.length_replicate]
  omega

theorem createTable_sizeInvariant (name : String) (fields : List Field)
    (data : List Nat) : sizeInvariant (CreateTable name fields data) := by
  simp [CreateTable, sizeInvariant]

theorem insertRow_sizeInvariant (t : Table) (values : List Value) (t' : Table) (n : Int)
    (hr : t.rowByteCount = calculateRowSize t.fields)
    (hfit : valsFit values t.fields = true)
    (hinv : sizeInvariant t)
    (h : InsertRow t values = .ok (t', n)) : sizeInvariant t' := by
  have hb : ((padToRow t.rowByteCount.toNat (insertRowBytes values t.fields)).length : Int)
      = t.rowByteCount := by
    have h1 := insertRowBytes_length_le values t.fields hfit
    have h0 := calculateRowSize_nonneg t.fields
    rw [padToRow_length]
    · omega
    · omega
  unfold InsertRow at h
  dsimp only at h
  split at h
  · exact absurd h (by simp)
  · split at h
    · exact absurd h (by simp)
    · rw [Except.ok.injEq, Prod.mk.injEq] at h
      obtain ⟨ht', -⟩ := h
      subst ht'
      unfold sizeInvariant at hinv ⊢
      simp only
      have hmul : (t.rowCount + 1) * t.rowByteCount
          = t.rowCount * t.rowByteCount + t.rowByteCount := by ring
      rw [hmul]
      linarith

theorem deleteRows_sizeInvariant (t : Table) (filters : List Filter) (t' : Table) (n : Int)
    (hinv : sizeInvariant t)
    (h : DeleteRows t filters = .ok (t', n)) : sizeInvariant t' := by
  unfold DeleteRows at h
  dsimp only at h
  split at h
  · split at h
    · exact absurd h (by simp)
    · rw [Except.ok.injEq, Prod.mk.injEq] at h
      obtain ⟨ht', -⟩ := h
      subst ht'
      unfold sizeInvariant
      simp
  · split at h
    · exact absurd h (by simp)
    · rename_i rows heq
      split at h
      · rw [Except.ok.injEq, Prod.mk.injEq] at h
        obtain ⟨ht', -⟩ := h
        subst ht'
        exact hinv
      · split at h
        · exact absurd h (by simp)
        · split at h
          · exact absurd h (by simp)
          · rw [Except.ok.injEq, Prod.mk.injEq] at h
            obtain ⟨ht', -⟩ := h
            subst ht'
            unfold sizeInvariant at hinv ⊢
            simp only
            have hmul : (t.rowCount - (rows.length : Int)) * t.rowByteCount
                = t.rowCount * t.rowByteCount - (rows.length : Int) * t.rowByteCount := by
              ring
            rw [hmul]
            linarith

theorem updateRows_sizeInvariant (t : Table) (values : List Value)
    (filters : List Filter) (t' : Table) (n : Int)
    (hinv : sizeInvariant t)
    (h : UpdateRows t values filters = .ok (t', n)) : sizeInvariant t' := by
  unfold UpdateRows at h
  split at h
  · exact absurd h (by simp)
  · split at h
    · exact absurd h (by simp)
    · split at h
      · exact absurd h (by simp)
      · rw [Except.ok.injEq, Prod.mk.injEq] at h
        obtain ⟨ht', -⟩ := h
        subst ht'
        exact hinv

/-- C2: after every committed operation, the table state satisfies
file_size == header_bytes + row_count * row_bytes exactly.  Create
establishes the equation; InsertRow preserves it whenever the row width is
the derived field-width sum and every selected value encodes within its field
(true of all well-typed values), because the written buffer then has exactly
row_bytes bytes; DeleteRows subtracts the same multiple of the row width from
both sides; UpdateRows rewrites rows in place and touches no counter. -/
theorem sizeInvariant_committed_ops :
    (∀ name fields data, sizeInvariant (CreateTable name fields data))
    ∧ (∀ t values t' n, t.rowByteCount = calculateRowSize t.fields →
        valsFit values t.fields = true → sizeInvariant t →
        InsertRow t values = .ok (t', n) → sizeInvariant t')
    ∧ (∀ t filters t' n, sizeInvariant t →
        DeleteRows t filters = .ok (t', n) → sizeInvariant t')
    ∧ (∀ t values filters t' n, sizeInvariant t →
        UpdateRows t values filters = .ok (t', n) → sizeInvariant t') :=
  ⟨createTable_sizeInvariant,
   fun t values t' n hr hfit hinv h => insertRow_sizeInvariant t values t' n hr hfit hinv h,
   fun t filters t' n hinv h => deleteRows_sizeInvariant t filters t' n hinv h,
   fun t values filters t' n hinv h => updateRows_sizeInvariant t values filters t' n hinv h⟩

/-- Witness for C2 at concrete inputs: a fresh create, the insert of an int
value, the delete of tblC1 by filterC1 and the NaN update of tblC3 all land
in states satisfying the size invariant. -/
theorem sizeInvariant_committed_ops_witness :
    sizeInvariant (CreateTable "t" [{ name := "v", type := .int }] [3, 4])
    ∧ sizeInvariant { tblC6 with file := hdr8 ++ i64ToB 5, fileByteCount := 16, rowCount := 1 }
    ∧ sizeInvariant tblC1After
    ∧ sizeInvariant { tblC3 with file := tblC3.file } := by
  obtain ⟨hc, hi, hd, hu⟩ := sizeInvariant_committed_ops
  refine ⟨hc "t" [{ name := "v", type := .int }] [3, 4], ?_, ?_, ?_⟩
  · exact hi tblC6 [{ type := .int, val := .i64 5, fieldName := "a" }] _ 1
      (by decide) (by decide) (by decide) rfl
  · exact hd tblC1 [filterC1] _ 2 (by decide) rfl
  · exact hu tblC3 valsC3 [] _ 1 (by decide) rfl

/-! Helper lemmas for the UpdateRows count (C3). -/

theorem buildNewRow_flag (values : List Value) (fields : List Field)
    (vs : List Value) (ru : Bool) (bytes : List Nat)
    (h : buildNewRow values fields vs = .ok (ru, bytes)) :
    ru = (fields.zip vs).any fun p =>
      match valsMapLookup values p.1.name with
      | some newVal => !goEq newVal.val p.2.val
      | none => false := by
  induction fields generalizing vs ru bytes with
  | nil =>
    rw [buildNewRow] at h
    rw [Except.ok.injEq, Prod.mk.injEq] at h
    obtain ⟨hru, -⟩ := h
    simp [← hru]
  | cons f fs ih =>
    cases vs with
    | nil => rw [buildNewRow] at h; exact absurd h (by simp)
    | cons v vs' =>
      rw [buildNewRow] at h
      dsimp only at h
      cases hrec : buildNewRow values fs vs' with
      | error e => rw [hrec] at h; exact absurd h (by simp [bind, Except.bind])
      | ok p =>
        obtain ⟨ru', bytes'⟩ := p
        rw [hrec] at h
        have hflag := ih vs' ru' bytes' hrec
        simp only [bind, Except.bind] at h
        cases hl : valsMapLookup values f.name with
        | some newVal =>
          rw [hl] at h
          rw [Except.ok.injEq, Prod.mk.injEq] at h
          obtain ⟨hru, -⟩ := h
          simp [List.zip_cons_cons, List.any_cons, ← hru, hflag, hl]
        | none =>
          rw [hl] at h
          rw [Except.ok.injEq, Prod.mk.injEq] at h
          obtain ⟨hru, -⟩ := h
          simp [List.zip_cons_cons, List.any_cons, ← hru, hflag, hl]

theorem buildNewRows_length (t : Table) (values : List Value) (rows : List Row)
    (l : List (Int × List Nat))
    (h : buildNewRows t values rows = .ok l) :
    l.length = (rows.filter fun row => rowDiffers values t.fields row).length := by
  induction rows generalizing l with
  | nil =>
    rw [buildNewRows] at h
    rw [Except.ok.injEq] at h
    simp [← h]
  | cons row rest ih =>
    rw [buildNewRows] at h
    dsimp only at h
    cases hbr : buildNewRow values t.fields row.values with
    | error e => rw [hbr] at h; exact absurd h (by simp [bind, Except.bind])
    | ok p =>
      obtain ⟨ru, bytes⟩ := p
      rw [hbr] at h
      simp only [bind, Except.bind] at h
      cases htail : buildNewRows t values rest with
      | error e => rw [htail] at h; exact absurd h (by simp [bind, Except.bind])
      | ok tail =>
        rw [htail] at h
        rw [Except.ok.injEq] at h
        have hflag := buildNewRow_flag values t.fields row.values ru bytes hbr
        have htl := ih tail htail
        rw [List.filter_cons]
        rw [rowDiffers, ← hflag]
        cases hr : ru with
        | true => simp [← h, hr, htl]
        | false => simp [← h, hr, htl]

/-- C3 (amended): UpdateRows returns exactly the number of matched rows in
which at least one overridden field has a payload differing, under Go
equality on the decoded values, from the old payload.  (The further claim
that repeating the identical statement always returns 0 holds only for
payloads that survive the encode/decode round trip; a NaN float override is a
counterexample, see the companion counterexample theorem.) -/
theorem updateRows_count_characterization (t : Table) (values : List Value)
    (filters : List Filter) (t' : Table) (n : Int)
    (h : UpdateRows t values filters = .ok (t', n)) :
    ∃ rows, rowsThatMatch t filters = .ok rows
      ∧ n = ((rows.filter fun row => rowDiffers values t.fields row).length : Int) := by
  unfold UpdateRows at h
  split at h
  · exact absurd h (by simp)
  · rename_i rows hrows
    refine ⟨rows, hrows, ?_⟩
    split at h
    · exact absurd h (by simp)
    · rename_i newRows hnew
      split at h
      · exact absurd h (by simp)
      · rw [Except.ok.injEq, Prod.mk.injEq] at h
        obtain ⟨-, hn⟩ := h
        rw [← hn, buildNewRows_length t values rows newRows hnew]

/-- Witness for C3 at a concrete input: the NaN update of tblC3 returns 1,
which the characterization rewrites as the count of matched rows with a
differing override. -/
theorem updateRows_count_characterization_witness :
    ∃ rows, rowsThatMatch tblC3 [] = .ok rows
      ∧ (1 : Int) = ((rows.filter fun row => rowDiffers valsC3 tblC3.fields row).length : Int) :=
  updateRows_count_characterization tblC3 valsC3 [] tblC3 1 rfl

/-! Helper lemmas about the little-endian encoders (C5 and C8). -/

theorem toBytesLE_length (k n : Nat) : (toBytesLE k n).length = k := by
  induction k generalizing n with
  | zero => rfl
  | succ k ih => simp [toBytesLE, ih]

theorem fromBytesLE_toBytesLE (k n : Nat) :
    fromBytesLE (toBytesLE k n) = n % 256 ^ k := by
  induction k generalizing n with
  | zero => simp [toBytesLE, fromBytesLE, Nat.mod_one]
  | succ k ih =>
    rw [toBytesLE, fromBytesLE, ih, pow_succ, mul_comm (256 ^ k) 256, Nat.mod_mul]

theorem toBytesLE_inj (k m n : Nat) (hm : m < 256 ^ k) (hn : n < 256 ^ k) :
    toBytesLE k m = toBytesLE k n ↔ m = n := by
  constructor
  · intro h
    have h2 := congrArg fromBytesLE h
    rwa [fromBytesLE_toBytesLE, fromBytesLE_toBytesLE,
      Nat.mod_eq_of_lt hm, Nat.mod_eq_of_lt hn] at h2
  · intro h
    rw [h]

theorem bToI64_i64ToB (v : Int) (h1 : -2 ^ 63 ≤ v) (h2 : v < 2 ^ 63) :
    bToI64 (i64ToB v) = v := by
  unfold bToI64 i64ToB
  have hnn : 0 ≤ v % (2 ^ 64) := Int.emod_nonneg v (by norm_num)
  have hub : v % (2 ^ 64) < 2 ^ 64 := Int.emod_lt_of_pos v (by norm_num)
  have hlen := toBytesLE_length 8 (v % (2 ^ 64)).toNat
  rw [List.take_of_length_le (le_of_eq hlen), fromBytesLE_toBytesLE]
  have hmlt : (v % (2 ^ 64)).toNat < 256 ^ 8 := by
    have h2568 : ((256 : Nat) ^ 8) = 2 ^ 64 := by norm_num
    rw [h2568]
    omega
  rw [Nat.mod_eq_of_lt hmlt]
  dsimp only
  split
  · rw [Int.toNat_of_nonneg hnn]
    omega
  · rw [Int.toNat_of_nonneg hnn]
    omega

theorem i64ToB_length (v : Int) : (i64ToB v).length = 8 := toBytesLE_length 8 _

theorem f64ToB_length (bits : Nat) : (f64ToB bits).length = 8 := toBytesLE_length 8 _

theorem compareEqual_cons (a b : Nat) (l m : List Nat) :
    compareEqual (a :: l) (b :: m) = ((a == b) && compareEqual l m) := rfl

theorem compareEqual_eq_iff (l1 l2 : List Nat) (h : l1.length = l2.length) :
    compareEqual l1 l2 = true ↔ l1 = l2 := by
  induction l1 generalizing l2 with
  | nil =>
    cases l2 with
    | nil => simp [compareEqual]
    | cons b m => simp at h
  | cons a l ih =>
    cases l2 with
    | nil => simp at h
    | cons b m =>
      rw [List.length_cons, List.length_cons, Nat.add_right_cancel_iff] at h
      rw [compareEqual_cons, Bool.and_eq_true, beq_iff_eq, ih m h]
      constructor
      · rintro ⟨h1, h2⟩
        rw [h1, h2]
      · intro hh
        injection hh with hh1 hh2
        exact ⟨hh1, hh2⟩

/-- C8 (amended): byte-wise equality of the fixed-width little-endian
encodings is numeric equality for INT cells, but for FLOAT cells it is
bit-pattern equality; bit-pattern equality differs from IEEE numeric
equality exactly at signed zeros and NaN, see the companion counterexample
theorem. -/
theorem compareEqual_int_float_encodings :
    (∀ a b : Int, -2 ^ 63 ≤ a → a < 2 ^ 63 → -2 ^ 63 ≤ b → b < 2 ^ 63 →
      (compareEqual (i64ToB a) (i64ToB b) = true ↔ a = b))
    ∧ (∀ x y : Nat, x < 2 ^ 64 → y < 2 ^ 64 →
      (compareEqual (f64ToB x) (f64ToB y) = true ↔ x = y)) := by
  constructor
  · intro a b ha1 ha2 hb1 hb2
    rw [compareEqual_eq_iff _ _ (by rw [i64ToB_length, i64ToB_length])]
    constructor
    · intro h
      have h2 := congrArg bToI64 h
      rwa [bToI64_i64ToB a ha1 ha2, bToI64_i64ToB b hb1 hb2] at h2
    · intro h
      rw [h]
  · intro x y hx hy
    have he : (256 : Nat) ^ 8 = 2 ^ 64 := by norm_num
    rw [compareEqual_eq_iff _ _ (by rw [f64ToB_length, f64ToB_length])]
    unfold f64ToB
    rw [Nat.mod_eq_of_lt hx, Nat.mod_eq_of_lt hy]
    exact toBytesLE_inj 8 x y (by omega) (by omega)

/-- Witness for C8 at concrete inputs: equal negative ints and equal float
bit patterns compare byte-equal. -/
theorem compareEqual_int_float_encodings_witness :
    compareEqual (i64ToB (-5)) (i64ToB (-5)) = true
    ∧ compareEqual (f64ToB 17) (f64ToB 17) = true := by
  obtain ⟨hint, hfl⟩ := compareEqual_int_float_encodings
  exact ⟨(hint (-5) (-5) (by norm_num) (by norm_num) (by norm_num) (by norm_num)).mpr rfl,
    (hfl 17 17 (by norm_num) (by norm_num)).mpr rfl⟩

/-- C5 (amended): opening a table file never checks that the data region is a
multiple of the row width.  For any well-formed header followed by k whole
rows and any partial trailing junk shorter than one row, readTableFile
succeeds and derives row_count = k by truncating integer division, silently
ignoring the junk. -/
theorem readTableFile_truncating_division
    (decode : List Nat → Option (String × List Field))
    (name : String) (fields : List Field) (d rowsData junk : List Nat) (k : Nat)
    (hdec : decode d = some (name, fields))
    (hhdr : (d.length : Int) + 8 < 2 ^ 63)
    (hrpos : 0 < calculateRowSize fields)
    (hrows : (rowsData.length : Int) = (k : Int) * calculateRowSize fields)
    (hjunk : (junk.length : Int) < calculateRowSize fields) :
    readTableFile (i64ToB ((d.length : Int) + 8) ++ (d ++ (rowsData ++ junk))) decode
      = .ok { fileByteCount := (8 : Int) + d.length + rowsData.length + junk.length
              headerByteCount := (d.length : Int) + 8
              rowByteCount := calculateRowSize fields
              rowCount := (k : Int)
              name := name
              fields := fields
              file := i64ToB ((d.length : Int) + 8) ++ (d ++ (rowsData ++ junk)) } := by
  have hlen8 : (i64ToB ((d.length : Int) + 8)).length = 8 := i64ToB_length _
  have htake : (i64ToB ((d.length : Int) + 8) ++ (d ++ (rowsData ++ junk))).take 8
      = i64ToB ((d.length : Int) + 8) := by
    rw [← hlen8]
    exact List.take_left _ _
  have hdrop : (i64ToB ((d.length : Int) + 8) ++ (d ++ (rowsData ++ junk))).drop 8
      = d ++ (rowsData ++ junk) := by
    rw [← hlen8]
    exact List.drop_left _ _
  have hb : bToI64 (i64ToB ((d.length : Int) + 8)) = (d.length : Int) + 8 :=
    bToI64_i64ToB _ (by omega) hhdr
  have hflen : ((i64ToB ((d.length : Int) + 8) ++ (d ++ (rowsData ++ junk))).length : Int)
      = 8 + d.length + rowsData.length + junk.length := by
    simp only [List.length_append, hlen8]
    push_cast
    ring
  unfold readTableFile
  rw [htake, hb]
  rw [if_neg (by omega : ¬ ((d.length : Int) + 8 - 8 < 0))]
  have htn : ((d.length : Int) + 8 - 8).toNat = d.length := by omega
  rw [hdrop, htn, List.take_left]
  dsimp only
  rw [hdec]
  dsimp only
  rw [if_neg (by simp only [beq_iff_eq]; omega : ¬ (calculateRowSize fields == 0) = true)]
  rw [Except.ok.injEq, Table.mk.injEq]
  refine ⟨hflen, rfl, rfl, ?_, rfl, rfl, rfl⟩
  rw [hflen]
  have hd : (8 : Int) + d.length + rowsData.length + junk.length - ((d.length : Int) + 8)
      = (k : Int) * calculateRowSize fields + junk.length := by
    rw [← hrows]
    ring
  have hkr : (0 : Int) ≤ (k : Int) * calculateRowSize fields :=
    mul_nonneg (Int.natCast_nonneg k) (le_of_lt hrpos)
  have hjn : (0 : Int) ≤ (junk.length : Int) := Int.natCast_nonneg _
  rw [hd, Int.tdiv_eq_ediv (by linarith) (le_of_lt hrpos)]
  rw [add_comm, Int.add_mul_ediv_right _ _ (ne_of_gt hrpos),
    Int.ediv_eq_zero_of_lt hjn hjunk]
  ring

/-- Witness for C5 at a concrete input: one byte of schema, two 8-byte int
rows and one byte of junk give row count 2 with no error. -/
theorem readTableFile_truncating_division_witness :
    readTableFile (i64ToB 9 ++ ([1] ++ (List.replicate 16 0 ++ [5])))
        (fun _ => some ("t", [{ name := "v", type := .int }]))
      = .ok { fileByteCount := 26
              headerByteCount := 9
              rowByteCount := 8
              rowCount := 2
              name := "t"
              fields := [{ name := "v", type := .int }]
              file := i64ToB 9 ++ ([1] ++ (List.replicate 16 0 ++ [5])) } := by
  have h := readTableFile_truncating_division
    (fun _ => some ("t", [{ name := "v", type := .int }]))
    "t" [{ name := "v", type := .int }] [1] (List.replicate 16 0) [5] 2
    rfl (by norm_num) (by decide) (by decide) (by decide)
  simpa using h

/-- C6 (amended): the storage engine rejects, without touching the file,
every value list longer than the field list; a keyed value naming an absent
field is NOT rejected here but silently ignored (see the companion
counterexample theorem) — that rejection happens earlier, in the engine
coordinator, which resolves every field name before calling the storage
engine. -/
theorem insertRow_rejects_too_many_values (t : Table) (values : List Value)
    (h : t.fields.length < values.length) :
    InsertRow t values = .error "there are only so many fields on this table" := by
  unfold InsertRow
  rw [if_pos h]

/-- Witness for C6 at a concrete input: two values against a one-field table
are rejected. -/
theorem insertRow_rejects_too_many_values_witness :
    InsertRow tblC6 [valC6, valC6] = .error "there are only so many fields on this table" :=
  insertRow_rejects_too_many_values tblC6 [valC6, valC6] (by decide)

/-- C7 (amended): the split pass replaces every chunk of more than two rows
whose byte size exceeds 5 MiB by its two halves around the integer midpoint,
both inheriting the shift of the parent.  The pass is not recursive, so a
half may itself still exceed 5 MiB (see the companion counterexample
theorem). -/
theorem splitChunks_halves_inherit_shift (r : Int) (cs : List Chunk) (c : Chunk)
    (hmem : c ∈ cs) (hsize : chunkByteCount r c > maxChunkSize)
    (hrows : c.stop - c.start + 1 > 2) :
    ({ start := c.start, stop := Int.tdiv (c.stop + c.start) 2, shift := c.shift } : Chunk)
        ∈ splitChunksPass r cs
    ∧ ({ start := Int.tdiv (c.stop + c.start) 2 + 1, stop := c.stop, shift := c.shift } : Chunk)
        ∈ splitChunksPass r cs := by
  have hsize' : (c.stop - c.start + 1) * r > maxChunkSize := by
    rw [chunkByteCount] at hsize
    exact hsize
  have hcond : ((decide ((c.stop - c.start + 1) * r > maxChunkSize)
      && decide (c.stop - c.start + 1 > 2)) = true) := by
    simp only [Bool.and_eq_true, decide_eq_true_eq]
    exact ⟨hsize', hrows⟩
  constructor
  all_goals
    rw [splitChunksPass]
    apply List.mem_flatMap.mpr
    refine ⟨c, hmem, ?_⟩
    dsimp only
    rw [if_pos hcond]
    simp

/-- Witness for C7 at a concrete input: the 11-row, 1 MiB-row chunk is over
the cap and the pass contains both its halves with the inherited shift. -/
theorem splitChunks_halves_inherit_shift_witness :
    ({ start := 0, stop := 5, shift := 1 } : Chunk)
        ∈ splitChunksPass 1048576 [{ start := 0, stop := 10, shift := 1 }]
    ∧ ({ start := 6, stop := 10, shift := 1 } : Chunk)
        ∈ splitChunksPass 1048576 [{ start := 0, stop := 10, shift := 1 }] := by
  have h := splitChunks_halves_inherit_shift 1048576
    [{ start := 0, stop := 10, shift := 1 }] { start := 0, stop := 10, shift := 1 }
    (by decide) (by decide) (by decide)
  simpa using h

/-! Helper lemmas for the quote-group scanner (C9). -/

theorem quote_ne_backslash (q : Char) (h : isQuote q = true) :
    (q == backslashChar) = false := by
  rw [isQuote, Bool.or_eq_true] at h
  rcases h with h | h
  · rw [eq_of_beq h]
    decide
  · rw [eq_of_beq h]
    decide

theorem captureQuoteLoop_body (q2 : Char) (tail : List Char) (hq2 : isQuote q2 = true) :
    ∀ body i acc, noSpecialChars body = true →
      captureQuoteLoop (body ++ q2 :: tail) i false acc = .ok (acc ++ body, i + body.length) := by
  intro body
  induction body with
  | nil =>
    intro i acc _
    rw [List.nil_append, captureQuoteLoop]
    rw [if_neg (by simp), if_neg (by rw [quote_ne_backslash q2 hq2]; simp), if_pos hq2]
    simp
  | cons c cs ih =>
    intro i acc hb
    rw [noSpecialChars, List.all_cons, Bool.and_eq_true] at hb
    obtain ⟨hc, hcs⟩ := hb
    rw [Bool.and_eq_true] at hc
    obtain ⟨hcq, hcb⟩ := hc
    have hcq' : isQuote c = false := by
      cases hiq : isQuote c
      · rfl
      · rw [hiq] at hcq
        exact absurd hcq (by decide)
    have hcb' : (c == backslashChar) = false := by
      cases hbq : c == backslashChar
      · rfl
      · rw [bne, hbq] at hcb
        exact absurd hcb (by decide)
    rw [List.cons_append, captureQuoteLoop]
    rw [if_neg (by simp), if_neg (by rw [hcb']; simp), if_neg (by rw [hcq']; simp)]
    rw [ih (i + 1) (acc ++ [c]) hcs]
    rw [List.append_assoc, List.singleton_append, List.length_cons]
    rw [Except.ok.injEq, Prod.mk.injEq]
    exact ⟨rfl, by omega⟩

theorem captureQuoteLoop_exhausted :
    ∀ body i acc, noSpecialChars body = true →
      captureQuoteLoop body i false acc = .error "unclosed quotes" := by
  intro body
  induction body with
  | nil =>
    intro i acc _
    rw [captureQuoteLoop]
  | cons c cs ih =>
    intro i acc hb
    rw [noSpecialChars, List.all_cons, Bool.and_eq_true] at hb
    obtain ⟨hc, hcs⟩ := hb
    rw [Bool.and_eq_true] at hc
    obtain ⟨hcq, hcb⟩ := hc
    have hcq' : isQuote c = false := by
      cases hiq : isQuote c
      · rfl
      · rw [hiq] at hcq
        exact absurd hcq (by decide)
    have hcb' : (c == backslashChar) = false := by
      cases hbq : c == backslashChar
      · rfl
      · rw [bne, hbq] at hcb
        exact absurd hcb (by decide)
    rw [captureQuoteLoop]
    rw [if_neg (by simp), if_neg (by rw [hcb']; simp), if_neg (by rw [hcq']; simp)]
    exact ih (i + 1) (acc ++ [c]) hcs

/-- C9 (amended): a quote group is opened by either quote character and
closed by the FIRST following unescaped quote character of either kind (not
necessarily the same kind, see the companion counterexample theorem); the
outer quotes are stripped, a backslash escapes the character after it (also a
quote), and a group that never meets an unescaped quote fails with the
unclosed-quote error. -/
theorem captureQuoteGroup_amended (q1 q2 c : Char) (body rest : List Char)
    (hq1 : isQuote q1 = true) (hq2 : isQuote q2 = true)
    (hbody : noSpecialChars body = true) :
    captureQuoteGroup (q1 :: (body ++ q2 :: rest)) 0 = .ok (body, body.length + 1)
    ∧ captureQuoteGroup (q1 :: body) 0 = .error "unclosed quotes"
    ∧ captureQuoteGroup (q1 :: backslashChar :: c :: q2 :: rest) 0 = .ok ([c], 3) := by
  have hq1' : (!isQuote q1) = false := by rw [hq1]; rfl
  refine ⟨?_, ?_, ?_⟩
  · show captureQuoteGroup (q1 :: (body ++ q2 :: rest)) 0 = _
    rw [captureQuoteGroup]
    show (if (!isQuote q1) = true then _ else captureQuoteLoop (body ++ q2 :: rest) 1 false []) = _
    rw [if_neg (by rw [hq1']; simp)]
    rw [captureQuoteLoop_body q2 rest hq2 body 1 [] hbody]
    rw [List.nil_append]
    rw [Except.ok.injEq, Prod.mk.injEq]
    exact ⟨rfl, by omega⟩
  · rw [captureQuoteGroup]
    show (if (!isQuote q1) = true then _ else captureQuoteLoop body 1 false []) = _
    rw [if_neg (by rw [hq1']; simp)]
    exact captureQuoteLoop_exhausted body 1 [] hbody
  · rw [captureQuoteGroup]
    show (if (!isQuote q1) = true then _
          else captureQuoteLoop (backslashChar :: c :: q2 :: rest) 1 false []) = _
    rw [if_neg (by rw [hq1']; simp)]
    rw [captureQuoteLoop]
    rw [if_neg (by simp), if_pos (by simp)]
    rw [captureQuoteLoop]
    rw [if_pos rfl]
    rw [captureQuoteLoop]
    rw [if_neg (by simp), if_neg (by rw [quote_ne_backslash q2 hq2]; simp), if_pos hq2]
    rfl

/-- Witness for C9 at concrete inputs: a single-quote group closed by a
double quote with trailing text, an unterminated group, and an escaped
character. -/
theorem captureQuoteGroup_amended_witness :
    captureQuoteGroup [singleQuoteChar, Char.ofNat 97, doubleQuoteChar, Char.ofNat 98] 0
        = .ok ([Char.ofNat 97], 2)
    ∧ captureQuoteGroup [singleQuoteChar, Char.ofNat 97] 0 = .error "unclosed quotes"
    ∧ captureQuoteGroup
        [singleQuoteChar, backslashChar, Char.ofNat 120, doubleQuoteChar, Char.ofNat 98] 0
        = .ok ([Char.ofNat 120], 3) := by
  have h := captureQuoteGroup_amended singleQuoteChar doubleQuoteChar (Char.ofNat 120)
    [Char.ofNat 97] [Char.ofNat 98] (by decide) (by decide) (by decide)
  simpa using h

/-! Helper lemmas for the STRING round trip (C10). -/

theorem takeWhile_take (P : Nat → Bool) (s : List Nat) (n : Nat) :
    (s.take n).takeWhile P = (s.takeWhile P).take n := by
  induction s generalizing n with
  | nil => simp
  | cons a l ih =>
    cases n with
    | zero => simp
    | succ m =>
      rw [List.take_succ_cons, List.takeWhile_cons, List.takeWhile_cons]
      cases h : P a
      · simp
      · simp [List.take_succ_cons, ih m]

theorem takeWhile_append_zeros (s : List Nat) (k : Nat) (hk : 0 < k) :
    (s ++ List.replicate k 0).takeWhile (fun b => b != 0)
      = s.takeWhile (fun b => b != 0) := by
  induction s with
  | nil =>
    cases k with
    | zero => omega
    | succ m => simp [List.replicate_succ, List.takeWhile_cons]
  | cons a l ih =>
    rw [List.cons_append, List.takeWhile_cons, List.takeWhile_cons]
    cases h : (a != 0)
    · rfl
    · rw [ih]

theorem takeWhile_length_lt_of_mem_zero (s : List Nat) (h : 0 ∈ s) :
    (s.takeWhile (fun b => b != 0)).length < s.length := by
  induction s with
  | nil => simp at h
  | cons a l ih =>
    rw [List.takeWhile_cons]
    by_cases ha : a = 0
    · subst ha
      simp
    · have ha' : (a != 0) = true := by simpa [bne] using ha
      rw [ha']
      have h0 : 0 ∈ l := by
        rcases List.mem_cons.mp h with h1 | h1
        · exact absurd h1.symm ha
        · exact h1
      have := ih h0
      simp only [if_true, List.length_cons]
      omega

/-- C10: the STRING cell encode/decode pair is not the identity on strings
containing a NUL byte: the encoder writes the first 1024 bytes into the slot
and the decoder stops at the first NUL, so the round trip yields the prefix
before the first NUL (further truncated to the 1024-byte slot) and never the
original string. -/
theorem string_nul_roundtrip_truncates (s : List Nat) (h : 0 ∈ s) :
    bToS (sToB s) = (s.takeWhile fun b => b != 0).take 1024
    ∧ bToS (sToB s) ≠ s
    ∧ (sToB s).length = 1024 := by
  have hmain : bToS (sToB s) = (s.takeWhile fun b => b != 0).take 1024 := by
    rw [bToS, sToB, takeWhile_take, takeWhile_append_zeros s 1024 (by norm_num)]
  refine ⟨hmain, ?_, ?_⟩
  · intro heq
    have h1 := takeWhile_length_lt_of_mem_zero s h
    have h2 : (bToS (sToB s)).length < s.length := by
      rw [hmain, List.length_take]
      omega
    rw [heq] at h2
    omega
  · rw [sToB, List.length_take, List.length_append, List.length_replicate]
    omega

/-- Witness for C10 at a concrete input: the string with bytes 97, 0, 98
decodes back as just 97. -/
theorem string_nul_roundtrip_truncates_witness :
    bToS (sToB [97, 0, 98]) = ([97, 0, 98].takeWhile fun b => b != 0).take 1024
    ∧ bToS (sToB [97, 0, 98]) ≠ [97, 0, 98]
    ∧ (sToB [97, 0, 98]).length = 1024 :=
  string_nul_roundtrip_truncates [97, 0, 98] (by decide)

end SimpleSqlDb
